import Mathlib

/-!
Verification of the DORA maturity-audit AI pipeline: document chunking,
hashed bag-of-terms embedding, cosine ranking, the LLM analysis adapter,
and the batch analysis-job state machine.  Each definition is a shallow
embedding of the corresponding TypeScript function; texts are modelled as
`List Char` (JS strings), byte buffers as `List ℕ`, JS numbers as `ℝ`
(exact frequencies and counters as `ℕ`/`ℚ` where the code only does exact
integer arithmetic), and the relational store as explicit record state.
-/

namespace DoraAudit

/-! ### Chunker (`chunkText` in the anthropic library module) -/

structure ChunkResult where
  content : List Char
  startIndex : ℕ
  endIndex : ℕ
deriving DecidableEq, Repr

/-- Whitespace recognised by JS `String.prototype.trim` (the characters that
can actually occur in this pipeline; further Unicode space separators are
irrelevant to the properties proved here). -/
def isJsWhitespace (c : Char) : Bool :=
  c = ' ' || c = '\t' || c = '\n' || c = '\r' || c = '\x0b' || c = '\x0c' || c = ' '

/-- JS `String.prototype.trim`: drop leading and trailing whitespace. -/
def jsTrim (l : List Char) : List Char :=
  ((l.dropWhile isJsWhitespace).reverse.dropWhile isJsWhitespace).reverse

/-- JS `String.prototype.slice(a, b)` for `0 ≤ a ≤ b` (the only use here). -/
def sliceList (l : List Char) (a b : ℕ) : List Char :=
  (l.take b).drop a

/-- JS `text.lastIndexOf(c, pos)`: greatest index `i ≤ pos` with `text[i] = c`,
or `-1` when there is none (out-of-range indices never match). -/
def lastIndexOfLe (l : List Char) (c : Char) : ℕ → ℤ
  | 0 => if l.get? 0 = some c then 0 else -1
  | i + 1 => if l.get? (i + 1) = some c then ((i + 1 : ℕ) : ℤ) else lastIndexOfLe l c i

/-- The cut position of the window starting at `startIndex`: the raw
character cut, realigned to the latest sentence terminator or newline when
that does not halve the window.  The realignment test `breakPoint >
startIndex + chunkSize / 2` uses exact JS float division by 2, expressed
integrally as `2 * breakPoint > 2 * startIndex + chunkSize`. -/
def chunkEndAt (text : List Char) (chunkSize : ℕ) (startIndex : ℕ) : ℕ :=
  let endIndex := min (startIndex + chunkSize) text.length
  if endIndex < text.length then
    let lastPeriod := lastIndexOfLe text '.' endIndex
    let lastNewline := lastIndexOfLe text '\n' endIndex
    let breakPoint := max lastPeriod lastNewline
    if 2 * breakPoint > 2 * (startIndex : ℤ) + (chunkSize : ℤ) then
      (breakPoint + 1).toNat
    else endIndex
  else endIndex

/-- One loop iteration: the chunks pushed (`[]` or a singleton) and
`some nextStart`, or `none` when the loop exits (the `while` guard fails
or the `startIndex >= text.length - overlap` break fires). -/
def chunkStep (text : List Char) (chunkSize overlap : ℕ) (startIndex : ℕ) :
    List ChunkResult × Option ℕ :=
  if startIndex < text.length then
    let chunkEnd := chunkEndAt text chunkSize startIndex
    let content := jsTrim (sliceList text startIndex chunkEnd)
    let emitted :=
      if 0 < content.length then [ChunkResult.mk content startIndex chunkEnd] else []
    let nextStart := ((chunkEnd : ℤ) - (overlap : ℤ)).toNat
    if (nextStart : ℤ) ≥ (text.length : ℤ) - (overlap : ℤ) then (emitted, none)
    else (emitted, some nextStart)
  else ([], none)

/-- The `chunkText` loop with explicit fuel; `none` means the fuel ran out
before the loop exited (the source loop has no such bound and simply keeps
running). -/
def chunkTextGo (text : List Char) (chunkSize overlap : ℕ) : ℕ → ℕ → Option (List ChunkResult)
  | 0, _ => none
  | fuel + 1, start =>
    match chunkStep text chunkSize overlap start with
    | (em, none) => some em
    | (em, some n) => (chunkTextGo text chunkSize overlap fuel n).map (em ++ ·)

/-- Model of `chunkText(text, chunkSize, overlap)`.  Here `text.length + 1` iterations are
enough whenever the loop terminates at all with strictly increasing
`startIndex`; a `none` result witnesses that the bound was exceeded. -/
def chunkText (text : List Char) (chunkSize overlap : ℕ) : Option (List ChunkResult) :=
  chunkTextGo text chunkSize overlap (text.length + 1) 0

/-- Whether the `chunkText` loop exits after finitely many iterations. -/
def chunkTextTerminates (text : List Char) (chunkSize overlap : ℕ) : Prop :=
  ∃ fuel, (chunkTextGo text chunkSize overlap fuel 0).isSome

/-! ### Embedder (`generateSimpleEmbedding`) -/

/-- JS regex word character `\w` = `[A-Za-z0-9_]`. -/
def isWordChar (c : Char) : Bool :=
  ('a' ≤ c && c ≤ 'z') || ('A' ≤ c && c ≤ 'Z') || ('0' ≤ c && c ≤ '9') || c = '_'

/-- Splitting on `/\W+/`: collect the maximal runs of word characters.
`cur` is the (reversed) run currently being read.  Leading-empty-string
artifacts of JS `split` are dropped here; they would be removed by the
`length > 2` filter anyway. -/
def wordRunsAux (cur : List Char) : List Char → List (List Char)
  | [] => if cur = [] then [] else [cur.reverse]
  | c :: rest =>
    if isWordChar c then wordRunsAux (c :: cur) rest
    else if cur = [] then wordRunsAux [] rest
    else cur.reverse :: wordRunsAux [] rest

/-- Model of `text.toLowerCase().split(/\W+/).filter(w => w.length > 2)`.
`Char.toLower` matches JS `toLowerCase` on the ASCII word characters that
can survive the split. -/
def tokenize (text : List Char) : List (List Char) :=
  (wordRunsAux [] (text.map Char.toLower)).filter (fun w => 2 < w.length)

/-- The rolling hash `hash = (hash * 31 + charCode) % 256` over a word.
The tokens reaching this point are ASCII, where `Char.toNat` coincides
with JS `charCodeAt`. -/
def hashWord (w : List Char) : Fin 256 :=
  w.foldl (fun h c => ⟨(h.val * 31 + c.toNat) % 256, Nat.mod_lt _ (by omega)⟩) ⟨0, by omega⟩

/-- One step of building the `wordFreq` object: bump the count of `w`,
inserting it at the end on first occurrence (JS object insertion order). -/
def bumpFreq (acc : List (List Char × ℕ)) (w : List Char) : List (List Char × ℕ) :=
  if acc.any (fun p => p.1 = w) then
    acc.map (fun p => if p.1 = w then (p.1, p.2 + 1) else p)
  else acc ++ [(w, 1)]

/-- The `wordFreq` map as an insertion-ordered association list. -/
def wordFreq (ws : List (List Char)) : List (List Char × ℕ) :=
  ws.foldl bumpFreq []

/-- The 256-bucket accumulation loop over `Object.entries(wordFreq)`:
`embedding[hash] += freq`. -/
def rawEmbedding (text : List Char) : Fin 256 → ℕ :=
  (wordFreq (tokenize text)).foldl
    (fun emb p => Function.update emb (hashWord p.1) (emb (hashWord p.1) + p.2))
    (fun _ => 0)

/-- The L2 magnitude computed by the normalization step. -/
noncomputable def magnitudeOf (text : List Char) : ℝ :=
  Real.sqrt (((List.ofFn (fun i : Fin 256 => (rawEmbedding text i : ℝ))).map
    (fun v => v * v)).sum)

/-- Model of `generateSimpleEmbedding`: the 256-dimensional bucket vector,
L2-normalized unless its magnitude is zero. -/
noncomputable def generateSimpleEmbedding (text : List Char) : List ℝ :=
  let embedding : List ℝ := List.ofFn (fun i : Fin 256 => (rawEmbedding text i : ℝ))
  let magnitude := magnitudeOf text
  if 0 < magnitude then embedding.map (fun v => v / magnitude) else embedding

/-! ### Cosine similarity (`cosineSimilarity`) -/

/-- Model of `cosineSimilarity(a, b)`: 0 on dimension mismatch or zero magnitude. -/
noncomputable def cosineSimilarity (a b : List ℝ) : ℝ :=
  if a.length ≠ b.length then 0
  else
    let dotProduct := (List.zipWith (fun x y => x * y) a b).sum
    let normA := (a.map (fun v => v * v)).sum
    let normB := (b.map (fun v => v * v)).sum
    let magnitude := Real.sqrt normA * Real.sqrt normB
    if 0 < magnitude then dotProduct / magnitude else 0

/-! ### Relevance ranking (the `.map(...).sort(...).slice(0, 5)` step of the
batch job route and of the single-question analysis route) -/

/-- A chunk joined with its document name, as assembled by
`documents.flatMap(doc => doc.chunks.map(chunk => ({...chunk, documentName})))`. -/
structure NamedChunk where
  id : ℕ
  documentId : ℕ
  content : List Char
  embedding : List ℝ
  documentName : List Char

/-- The record produced per candidate chunk, with its cosine score. -/
structure RankedChunk where
  id : ℕ
  content : List Char
  documentId : ℕ
  documentName : List Char
  relevanceScore : ℝ

/-- Scoring map: each chunk paired with
`cosineSimilarity(questionEmbedding, chunk.embedding)`. -/
noncomputable def scoreChunks (queryEmbedding : List ℝ) (chunks : List NamedChunk) :
    List RankedChunk :=
  chunks.map (fun c =>
    RankedChunk.mk c.id c.content c.documentId c.documentName
      (cosineSimilarity queryEmbedding c.embedding))

/-- Insertion into a descending-by-score list, after all elements of equal
score.  This is the unique stable sort demanded of
`sort((a, b) => b.relevanceScore - a.relevanceScore)` (JS `Array.sort` is
stable and the comparator orders strictly by score). -/
noncomputable def insertByScore (x : RankedChunk) : List RankedChunk → List RankedChunk
  | [] => [x]
  | y :: ys =>
    if x.relevanceScore ≤ y.relevanceScore then y :: insertByScore x ys else x :: y :: ys

/-- Stable descending sort by `relevanceScore`. -/
noncomputable def sortByScoreDesc (l : List RankedChunk) : List RankedChunk :=
  l.foldl (fun acc x => insertByScore x acc) []

/-- The ranking step: score all candidates, sort descending, keep the top
`K = 5` (`.slice(0, 5)`). -/
noncomputable def rankTop5 (queryEmbedding : List ℝ) (chunks : List NamedChunk) :
    List RankedChunk :=
  (sortByScoreDesc (scoreChunks queryEmbedding chunks)).take 5

/-- Descending-score order between ranked chunks. -/
def scoreGE (a b : RankedChunk) : Prop := b.relevanceScore ≤ a.relevanceScore

/-- Strict output order for stability: higher score first, ties by the
`id` of the candidate (used as an input-position tag). -/
def scoreStable (a b : RankedChunk) : Prop :=
  b.relevanceScore < a.relevanceScore ∨
    (a.relevanceScore = b.relevanceScore ∧ a.id < b.id)

/-! ### A small JSON model (for `JSON.parse` applied to the extracted
`{...}` span of the model reply) -/

inductive Json where
  | null : Json
  | bool (b : Bool) : Json
  | num (q : ℚ) : Json
  | str (s : List Char) : Json
  | arr (elems : List Json) : Json
  | obj (fields : List (List Char × Json)) : Json

/-- JSON insignificant whitespace. -/
def isJsonWs (c : Char) : Bool :=
  c = ' ' || c = '\t' || c = '\n' || c = '\r'

def skipWs (s : List Char) : List Char := s.dropWhile isJsonWs

def isDigitChar (c : Char) : Bool := '0' ≤ c && c ≤ '9'

def digitsToNat (ds : List Char) : ℕ :=
  ds.foldl (fun n c => n * 10 + (c.toNat - '0'.toNat)) 0

def hexVal (c : Char) : Option ℕ :=
  let n := c.toNat
  if 48 ≤ n && n ≤ 57 then some (n - 48)
  else if 97 ≤ n && n ≤ 102 then some (n - 87)
  else if 65 ≤ n && n ≤ 70 then some (n - 55)
  else none

/-- Body of a JSON string after the opening quote; returns the decoded
characters and the rest after the closing quote. -/
def parseStringBody : List Char → Option (List Char × List Char)
  | [] => none
  | '"' :: rest => some ([], rest)
  | '\\' :: esc =>
    match esc with
    | 'u' :: a :: b :: c :: d :: rest =>
      match hexVal a, hexVal b, hexVal c, hexVal d with
      | some ha, some hb, some hc, some hd =>
        (parseStringBody rest).map (fun p =>
          (Char.ofNat (((ha * 16 + hb) * 16 + hc) * 16 + hd) :: p.1, p.2))
      | _, _, _, _ => none
    | e :: rest =>
      let dec : Option Char :=
        if e = '"' then some '"'
        else if e = '\\' then some '\\'
        else if e = '/' then some '/'
        else if e = 'b' then some '\x08'
        else if e = 'f' then some '\x0c'
        else if e = 'n' then some '\n'
        else if e = 'r' then some '\r'
        else if e = 't' then some '\t'
        else none
      match dec with
      | some ch => (parseStringBody rest).map (fun p => (ch :: p.1, p.2))
      | none => none
    | [] => none
  | c :: rest => (parseStringBody rest).map (fun p => (c :: p.1, p.2))

/-- JSON number: `-?(0|[1-9][0-9]*)(\.[0-9]+)?([eE][+-]?[0-9]+)?`, valued
exactly in `ℚ` (JSON.parse rounds to binary float; the exact rational is
the faithful idealization). -/
def parseNumber (s : List Char) : Option (ℚ × List Char) :=
  let (neg, s1) := match s with
    | '-' :: rest => (true, rest)
    | _ => (false, s)
  let intDigits := s1.takeWhile isDigitChar
  let s2 := s1.dropWhile isDigitChar
  if intDigits = [] then none
  else if intDigits.length > 1 && intDigits.get? 0 = some '0' then none
  else
    let (fracDigits, s3) := match s2 with
      | '.' :: rest =>
        (rest.takeWhile isDigitChar, rest.dropWhile isDigitChar)
      | _ => ([], s2)
    if s2 ≠ [] && s2.get? 0 = some '.' && fracDigits = [] then none
    else
      let parseExp : Option (ℤ × List Char) :=
        match s3 with
        | e :: rest =>
          if e = 'e' || e = 'E' then
            let (eneg, r1) := match rest with
              | '+' :: r => (false, r)
              | '-' :: r => (true, r)
              | _ => (false, rest)
            let eDigits := r1.takeWhile isDigitChar
            if eDigits = [] then none
            else some (if eneg then -(digitsToNat eDigits : ℤ) else (digitsToNat eDigits : ℤ),
                       r1.dropWhile isDigitChar)
          else some (0, s3)
        | [] => some (0, s3)
      match parseExp with
      | none => none
      | some (e, rest) =>
        let mantissa : ℚ :=
          (digitsToNat intDigits : ℚ) + (digitsToNat fracDigits : ℚ) / (10 ^ fracDigits.length)
        let signed := if neg then -mantissa else mantissa
        some (signed * (10 : ℚ) ^ e, rest)

mutual

/-- Recursive-descent JSON value parser (fuel-indexed for termination). -/
def parseValue : ℕ → List Char → Option (Json × List Char)
  | 0, _ => none
  | fuel + 1, s =>
    match skipWs s with
    | [] => none
    | 'n' :: 'u' :: 'l' :: 'l' :: rest => some (Json.null, rest)
    | 't' :: 'r' :: 'u' :: 'e' :: rest => some (Json.bool true, rest)
    | 'f' :: 'a' :: 'l' :: 's' :: 'e' :: rest => some (Json.bool false, rest)
    | '"' :: rest => (parseStringBody rest).map (fun p => (Json.str p.1, p.2))
    | '[' :: rest =>
      (match skipWs rest with
       | ']' :: rest2 => some (Json.arr [], rest2)
       | _ => (parseElements fuel rest).map (fun p => (Json.arr p.1, p.2)))
    | '{' :: rest =>
      (match skipWs rest with
       | '}' :: rest2 => some (Json.obj [], rest2)
       | _ => (parseMembers fuel rest).map (fun p => (Json.obj p.1, p.2)))
    | s' => (parseNumber s').map (fun p => (Json.num p.1, p.2))

/-- Comma-separated array elements up to the closing `]`. -/
def parseElements : ℕ → List Char → Option (List Json × List Char)
  | 0, _ => none
  | fuel + 1, s =>
    match parseValue fuel s with
    | none => none
    | some (v, rest) =>
      match skipWs rest with
      | ',' :: rest2 =>
        (parseElements fuel rest2).map (fun p => (v :: p.1, p.2))
      | ']' :: rest2 => some ([v], rest2)
      | _ => none

/-- Comma-separated object members up to the closing `}`. -/
def parseMembers : ℕ → List Char → Option (List (List Char × Json) × List Char)
  | 0, _ => none
  | fuel + 1, s =>
    match skipWs s with
    | '"' :: rest =>
      match parseStringBody rest with
      | none => none
      | some (key, rest1) =>
        match skipWs rest1 with
        | ':' :: rest2 =>
          match parseValue fuel rest2 with
          | none => none
          | some (v, rest3) =>
            match skipWs rest3 with
            | ',' :: rest4 =>
              (parseMembers fuel rest4).map (fun p => ((key, v) :: p.1, p.2))
            | '}' :: rest4 => some ([(key, v)], rest4)
            | _ => none
        | _ => none
    | _ => none

end

/-- Model of `JSON.parse`: the whole input (modulo surrounding whitespace) must be
one JSON value; `none` models the thrown `SyntaxError`. -/
def jsonParse (s : List Char) : Option Json :=
  match parseValue (s.length + 1) s with
  | some (v, rest) => if skipWs rest = [] then some v else none
  | none => none

/-- JS property access on a parsed value: `undefined` (here `none`) unless
the value is an object with the key; later duplicate keys win. -/
def jsonGet (j : Json) (key : List Char) : Option Json :=
  match j with
  | Json.obj fields => ((fields.filter (fun p => p.1 = key)).getLast?).map (fun p => p.2)
  | _ => none

/-! ### LLM analysis adapter (`analyzeQuestion` in the anthropic library
module), and the JSON-or-fallback parse of the interactive
`analyze-question` route -/

/-- Model of the regex match locating the JSON span: the span from the first `\x7b` to the last
`\x7d`, provided the latter comes after the former (greedy match; earlier
start positions cannot match if the first brace cannot, since the closing
brace must lie strictly later). -/
def extractJsonSpan (s : List Char) : Option (List Char) :=
  match s.findIdx? (fun c => c = '{'), (s.reverse.findIdx? (fun c => c = '}')) with
  | some i, some k =>
    let j := s.length - 1 - k
    if i < j then some (sliceList s i (j + 1)) else none
  | _, _ => none

/-- One supporting source recorded with a suggestion: the chunk truncated
to 200 characters plus an ellipsis. -/
structure SourceEntry where
  documentId : ℕ
  documentName : List Char
  chunkContent : List Char
  relevanceScore : ℝ

/-- The adapter's structured result.  JS property accesses
`parsed.assessment` / `parsed.confidence` / `parsed.reasoning` can yield
`undefined` when the key is absent, modelled as `none`. -/
structure AnalysisResult where
  suggestion : Option Json
  confidence : Option Json
  reasoning : Option Json
  sources : List SourceEntry

/-- The response-processing tail of `analyzeQuestion`: extract the first
`\x7b...\x7d` span from the reply text (`null` when absent), `JSON.parse`
it (the thrown parse error is caught, yielding `null`), and package the
parsed fields with the ranked chunks as sources. -/
def analyzeQuestionResult (relevantChunks : List RankedChunk) (replyText : List Char) :
    Option AnalysisResult :=
  match extractJsonSpan replyText with
  | none => none
  | some span =>
    match jsonParse span with
    | none => none
    | some parsed =>
      some (AnalysisResult.mk
        (jsonGet parsed ("assessment".data))
        (jsonGet parsed ("confidence".data))
        (jsonGet parsed ("reasoning".data))
        (relevantChunks.map (fun c =>
          SourceEntry.mk c.documentId c.documentName
            (c.content.take 200 ++ ("...".data)) c.relevanceScore)))

/-- Model of `analyzeQuestion(questionText, relevantChunks)`.  The external call is
an oracle: `reply = none` models a missing client, a transport error or a
non-text content block, all of which the source maps to `null`.
`questionText` only shapes the prompt, not the result processing. -/
def analyzeQuestion (clientAvailable : Bool) (reply : Option (List Char))
    (questionText : List Char) (relevantChunks : List RankedChunk) : Option AnalysisResult :=
  if clientAvailable then
    match reply with
    | some t => analyzeQuestionResult relevantChunks t
    | none => none
  else none

/-- The fallback object built by the interactive `analyze-question` route
when no JSON span is found or parsing fails: label `INSUFFICIENT_INFO`,
confidence `0.5`, the raw reply text as reasoning. -/
def interactiveFallback (responseText : List Char) : Json :=
  Json.obj
    [("suggestion".data, Json.str ("INSUFFICIENT_INFO".data)),
     ("confidence".data, Json.num (1 / 2)),
     ("reasoning".data, Json.str responseText),
     ("evidenceDescription".data, Json.str []),
     ("sources".data, Json.arr [])]

/-- The `parsedResponse` computation of the interactive route: extracted
JSON if it parses, otherwise the degraded fallback (both the
no-JSON-found throw and the `JSON.parse` error land in the same catch). -/
def parseInteractiveResponse (responseText : List Char) : Json :=
  match extractJsonSpan responseText with
  | some span =>
    match jsonParse span with
    | some parsed => parsed
    | none => interactiveFallback responseText
  | none => interactiveFallback responseText

/-! ### The relational store and the analysis-job route handlers -/

inductive JobStatus where
  | PENDING | RUNNING | COMPLETED | FAILED | CANCELLED
deriving DecidableEq, Repr

inductive DocStatus where
  | PENDING | PROCESSING | COMPLETED | ERROR
deriving DecidableEq, Repr

structure AiJob where
  id : ℕ
  auditId : ℕ
  organizationId : ℕ
  chapterId : Option ℕ
  status : JobStatus
  totalQuestions : ℕ
  processedQuestions : ℕ
  failedQuestions : ℕ
  errorMessage : Option (List Char)
  startedAt : Option ℕ
  completedAt : Option ℕ
deriving DecidableEq, Repr

structure AiSuggestion where
  auditId : ℕ
  questionId : ℕ
  suggestion : Option Json
  confidence : Option Json
  reasoning : Option Json
  sources : List SourceEntry

structure Question where
  id : ℕ
  chapterId : ℕ
  text : List Char
deriving DecidableEq, Repr

structure StoredChunk where
  id : ℕ
  documentId : ℕ
  content : List Char
  embedding : List ℝ
  chunkIndex : ℕ

structure Document where
  id : ℕ
  organizationId : ℕ
  name : List Char
  originalName : Option (List Char)
  status : DocStatus
  chunks : List StoredChunk

/-- The relational store visible to the AI-job routes (timestamps are
abstract instants). -/
structure Store where
  jobs : List AiJob
  suggestions : List AiSuggestion
  questions : List Question
  documents : List Document

/-- The environment of one route invocation: whether `getAnthropicClient`
returns a client, the model reply per question id (`none` = failed call),
and the current instant for `new Date()`. -/
structure AdvanceEnv where
  clientAvailable : Bool
  reply : ℕ → Option (List Char)
  now : ℕ

def findJob (s : Store) (jobId : ℕ) : Option AiJob :=
  s.jobs.find? (fun j => j.id = jobId)

/-- Model of the job row update by id. -/
def updateJob (s : Store) (jobId : ℕ) (f : AiJob → AiJob) : Store :=
  { s with jobs := s.jobs.map (fun j => if j.id = jobId then f j else j) }

/-- Model of the suggestion row insert. -/
def createSuggestion (s : Store) (sug : AiSuggestion) : Store :=
  { s with suggestions := s.suggestions ++ [sug] }

/-- The terminal-status check of the advance handler
(`status === 'COMPLETED' || 'FAILED' || 'CANCELLED'`). -/
def isTerminal (st : JobStatus) : Bool :=
  st = JobStatus.COMPLETED || st = JobStatus.FAILED || st = JobStatus.CANCELLED

/-- The `questionWhere` filter: all questions, or those of the job's
chapter. -/
def questionMatchesChapter (chapterId : Option ℕ) (q : Question) : Bool :=
  match chapterId with
  | none => true
  | some c => q.chapterId = c

/-- The live unanalyzed-question set, recomputed on every advance call:
questions matching the filter with no persisted suggestion for the audit. -/
def unanalyzedQuestions (s : Store) (job : AiJob) : List Question :=
  let existingQuestionIds :=
    (s.suggestions.filter (fun sg => sg.auditId = job.auditId)).map (fun sg => sg.questionId)
  (s.questions.filter (questionMatchesChapter job.chapterId)).filter
    (fun q => ¬ existingQuestionIds.contains q.id)

/-- Model of the completed-documents query for an organization. -/
def completedDocs (s : Store) (orgId : ℕ) : List Document :=
  s.documents.filter (fun d => d.organizationId = orgId && d.status = DocStatus.COMPLETED)

/-- Model of `doc.originalName || doc.name` (the empty string is falsy in JS; an
absent value is `none` here). -/
def docDisplayName (d : Document) : List Char :=
  match d.originalName with
  | some n => if n = [] then d.name else n
  | none => d.name

/-- Model of the flatMap joining every chunk with its document name. -/
def allChunksOf (docs : List Document) : List NamedChunk :=
  docs.flatMap (fun d =>
    d.chunks.map (fun c => NamedChunk.mk c.id c.documentId c.content c.embedding
      (docDisplayName d)))

/-- The automatic low-relevance suggestion (confidence 0). -/
def insufficientSuggestion (auditId questionId : ℕ) : AiSuggestion :=
  AiSuggestion.mk auditId questionId
    (some (Json.str ("INSUFFICIENT_INFO".data)))
    (some (Json.num 0))
    (some (Json.str ("No relevant information found in uploaded documents.".data)))
    []

/-- The suggestion row persisted from an adapter result. -/
def suggestionOfAnalysis (auditId questionId : ℕ) (a : AnalysisResult) : AiSuggestion :=
  AiSuggestion.mk auditId questionId a.suggestion a.confidence a.reasoning a.sources

/-- The ranking performed per batch question: embed the question text and
take the top 5 chunks by cosine similarity. -/
noncomputable def rankForQuestion (questionText : List Char) (chunks : List NamedChunk) :
    List RankedChunk :=
  rankTop5 (generateSimpleEmbedding questionText) chunks

/-- The body of the batch `for` loop for one question: an automatic
`INSUFFICIENT_INFO` suggestion below the 0.05 threshold, otherwise the LLM
adapter; `true` means a suggestion was persisted (`processedCount++`),
`false` that the question failed (`failedCount++`).  The 300 ms
rate-limiting pause is I/O without effect on the state. -/
noncomputable def processQuestion (env : AdvanceEnv) (job : AiJob) (chunks : List NamedChunk)
    (s : Store) (q : Question) : Store × Bool :=
  let ranked := rankForQuestion q.text chunks
  match ranked with
  | [] => (createSuggestion s (insufficientSuggestion job.auditId q.id), true)
  | top :: _ =>
    if top.relevanceScore < 0.05 then
      (createSuggestion s (insufficientSuggestion job.auditId q.id), true)
    else
      match analyzeQuestion env.clientAvailable (env.reply q.id) q.text ranked with
      | some analysis =>
        (createSuggestion s (suggestionOfAnalysis job.auditId q.id analysis), true)
      | none => (s, false)

/-- The batch loop: thread the store through the questions in order and
return it with this call's `processedCount` and `failedCount`. -/
noncomputable def processBatch (env : AdvanceEnv) (job : AiJob) (chunks : List NamedChunk) :
    Store → List Question → Store × ℕ × ℕ
  | s, [] => (s, 0, 0)
  | s, q :: rest =>
    let r := processQuestion env job chunks s q
    let acc := processBatch env job chunks r.1 rest
    if r.2 then (acc.1, acc.2.1 + 1, acc.2.2) else (acc.1, acc.2.1, acc.2.2 + 1)

/-- The PENDING → RUNNING flip at the start of a live advance call. -/
def markRunning (env : AdvanceEnv) (s : Store) (jobId : ℕ) (job : AiJob) : Store :=
  if job.status = JobStatus.PENDING then
    updateJob s jobId (fun j =>
      { j with status := JobStatus.RUNNING, startedAt := some env.now })
  else s

/-- Outcome of the advance handler (`POST /api/ai/jobs/[jobId]`). -/
inductive AdvanceOutcome where
  | notFound
  | alreadyFinished (job : AiJob)
  | notConfigured
  | allDone
  | noDocuments
  | docsProcessing
  | batchDone (processed failed remaining batchSize : ℕ)

/-- The advance handler.  Counter updates read the job record fetched at
entry (`job.processedQuestions + processedCount`), and `remaining` counts
only the questions beyond this call's batch. -/
noncomputable def advanceJob (env : AdvanceEnv) (s : Store) (jobId : ℕ) :
    Store × AdvanceOutcome :=
  match findJob s jobId with
  | none => (s, AdvanceOutcome.notFound)
  | some job =>
    if isTerminal job.status then (s, AdvanceOutcome.alreadyFinished job)
    else if env.clientAvailable = false then
      (updateJob s jobId (fun j =>
        { j with status := JobStatus.FAILED,
                 errorMessage := some ("AI not configured. Please add your Anthropic API key in Settings.".data) }),
       AdvanceOutcome.notConfigured)
    else
      let s1 := markRunning env s jobId job
      let questionsToAnalyze := unanalyzedQuestions s1 job
      if questionsToAnalyze.length = 0 then
        (updateJob s1 jobId (fun j =>
          { j with status := JobStatus.COMPLETED, completedAt := some env.now }),
         AdvanceOutcome.allDone)
      else
        let batch := questionsToAnalyze.take 5
        let docs := completedDocs s1 job.organizationId
        if docs.length = 0 then
          (updateJob s1 jobId (fun j =>
            { j with status := JobStatus.FAILED,
                     errorMessage := some ("No documents available for analysis".data) }),
           AdvanceOutcome.noDocuments)
        else
          let chunks := allChunksOf docs
          if chunks.length = 0 then
            (updateJob s1 jobId (fun j =>
              { j with status := JobStatus.FAILED,
                       errorMessage := some ("Documents are still being processed".data) }),
             AdvanceOutcome.docsProcessing)
          else
            let res := processBatch env job chunks s1 batch
            let remaining := questionsToAnalyze.length - batch.length
            (updateJob res.1 jobId (fun j =>
              { j with
                  processedQuestions := job.processedQuestions + res.2.1,
                  failedQuestions := job.failedQuestions + res.2.2,
                  status := if remaining = 0 then JobStatus.COMPLETED else JobStatus.RUNNING,
                  completedAt := if remaining = 0 then some env.now else j.completedAt }),
             AdvanceOutcome.batchDone res.2.1 res.2.2 remaining batch.length)

/-- The cancel handler (`DELETE /api/ai/jobs/[jobId]`): an unconditional
update to CANCELLED stamping the completion time; `none` models the
not-found update error caught by the handler. -/
def cancelJob (s : Store) (jobId : ℕ) (now : ℕ) : Store × Option AiJob :=
  match findJob s jobId with
  | none => (s, none)
  | some job =>
    (updateJob s jobId (fun j =>
      { j with status := JobStatus.CANCELLED, completedAt := some now }),
     some { job with status := JobStatus.CANCELLED, completedAt := some now })

/-- The create handler (`POST /api/ai/jobs`): return any existing
PENDING/RUNNING job of the audit unchanged, else persist a fresh PENDING
job whose `totalQuestions` is `max 0 (matching − already-suggested)`
(truncated subtraction on `ℕ`).  The `Bool` reports whether a row was
created. -/
def createJob (s : Store) (auditId organizationId : ℕ) (chapterId : Option ℕ)
    (newId : ℕ) : Store × AiJob × Bool :=
  match s.jobs.find? (fun j =>
    j.auditId = auditId &&
      (j.status = JobStatus.PENDING || j.status = JobStatus.RUNNING)) with
  | some existingJob => (s, existingJob, false)
  | none =>
    let totalQuestions := (s.questions.filter (questionMatchesChapter chapterId)).length
    let existingSuggestions :=
      (s.suggestions.filter (fun sg => sg.auditId = auditId)).length
    let questionsToAnalyze := totalQuestions - existingSuggestions
    let job := AiJob.mk newId auditId organizationId chapterId JobStatus.PENDING
      questionsToAnalyze 0 0 none none none
    ({ s with jobs := s.jobs ++ [job] }, job, true)

/-! ### Document text extraction (`extractText` in
`src/lib/ai/document-processor.ts`) -/

/-- JS `toLowerCase` restricted to ASCII, which covers the file-type
strings compared against here. -/
def jsToLower (s : List Char) : List Char := s.map Char.toLower

/-- Lossy UTF-8 decoding of a byte buffer, as performed by Node's
`buffer.toString('utf-8')`: invalid sequences become U+FFFD replacement
characters instead of raising.  `fuel` is the buffer length (every step
consumes at least one byte). -/
def utf8DecodeGo : ℕ → List ℕ → List Char
  | 0, _ => []
  | _, [] => []
  | fuel + 1, b :: rest =>
    if b < 0x80 then Char.ofNat b :: utf8DecodeGo fuel rest
    else if 0xc2 ≤ b && b ≤ 0xdf then
      match rest with
      | b2 :: rest2 =>
        if 0x80 ≤ b2 && b2 ≤ 0xbf then
          Char.ofNat ((b - 0xc0) * 0x40 + (b2 - 0x80)) :: utf8DecodeGo fuel rest2
        else '�' :: utf8DecodeGo fuel rest
      | [] => ['�']
    else if 0xe0 ≤ b && b ≤ 0xef then
      match rest with
      | b2 :: b3 :: rest3 =>
        if 0x80 ≤ b2 && b2 ≤ 0xbf && 0x80 ≤ b3 && b3 ≤ 0xbf then
          let cp := (b - 0xe0) * 0x1000 + (b2 - 0x80) * 0x40 + (b3 - 0x80)
          if cp < 0x800 || (0xd800 ≤ cp && cp ≤ 0xdfff) then '�' :: utf8DecodeGo fuel rest3
          else Char.ofNat cp :: utf8DecodeGo fuel rest3
        else '�' :: utf8DecodeGo fuel rest
      | _ => ['�']
    else if 0xf0 ≤ b && b ≤ 0xf4 then
      match rest with
      | b2 :: b3 :: b4 :: rest4 =>
        if 0x80 ≤ b2 && b2 ≤ 0xbf && 0x80 ≤ b3 && b3 ≤ 0xbf && 0x80 ≤ b4 && b4 ≤ 0xbf then
          let cp := (b - 0xf0) * 0x40000 + (b2 - 0x80) * 0x1000 + (b3 - 0x80) * 0x40 + (b4 - 0x80)
          if cp < 0x10000 || 0x10ffff < cp then '�' :: utf8DecodeGo fuel rest4
          else Char.ofNat cp :: utf8DecodeGo fuel rest4
        else '�' :: utf8DecodeGo fuel rest
      | _ => ['�']
    else '�' :: utf8DecodeGo fuel rest

/-- Model of the buffer-to-string UTF-8 conversion: total for every byte buffer. -/
def utf8Decode (buffer : List ℕ) : List Char :=
  utf8DecodeGo (buffer.length + 1) buffer

/-- The wrapped PDF branch: `pdf-parse` is an external collaborator
(`pdfParse buffer = none` models its rejection), whose failure the source
converts to the typed error below. -/
def extractPdfText (pdfParse : List ℕ → Option (List Char)) (buffer : List ℕ) :
    Except (List Char) (List Char) :=
  match pdfParse buffer with
  | some t => Except.ok t
  | none => Except.error ("Failed to extract text from PDF".data)

/-- Model of `extractText(buffer, fileType)`.  The final branch is
`try { return buffer.toString('utf-8') } catch { throw 'Unsupported file
type' }`; since the decode is total the catch can never fire, which the
`Option`-valued decode makes explicit. -/
def extractText (pdfParse : List ℕ → Option (List Char)) (buffer : List ℕ)
    (fileType : List Char) : Except (List Char) (List Char) :=
  let type := jsToLower fileType
  if type = ("pdf".data) || type = ("application/pdf".data) then
    extractPdfText pdfParse buffer
  else if type = ("txt".data) || type = ("text/plain".data) then
    Except.ok (utf8Decode buffer)
  else if type = ("md".data) || type = ("text/markdown".data) then
    Except.ok (utf8Decode buffer)
  else
    match some (utf8Decode buffer) with
    | some t => Except.ok t
    | none => Except.error (("Unsupported file type: ".data) ++ fileType)

/-! ### Concrete fixtures used by counterexamples, traces and witnesses -/

/-- A model reply containing no JSON object. -/
def noJsonReply : List Char :=
  "Based on the provided documents I cannot determine compliance.".data

/-- The 256-entry unit bucket vector hit by the token `aaa` (bucket 65),
i.e. the stored embedding of a chunk whose text was exactly `aaa`. -/
noncomputable def e65R : List ℝ :=
  List.ofFn (fun i : Fin 256 => if i = (65 : Fin 256) then (1 : ℝ) else 0)

/-- A stored chunk whose embedding is the `aaa` bucket vector. -/
noncomputable def chunk65 : StoredChunk :=
  StoredChunk.mk 31 21 ("aaa".data) e65R 0

/-- A completed document of organization 1 holding `chunk65`. -/
noncomputable def doc65 : Document :=
  Document.mk 21 1 ("policy.txt".data) none DocStatus.COMPLETED [chunk65]

/-- The named-chunk view of `chunk65` produced by `allChunksOf`. -/
noncomputable def named65 : NamedChunk :=
  NamedChunk.mk 31 21 ("aaa".data) e65R ("policy.txt".data)

/-- The question text whose embedding is exactly the `aaa` bucket vector. -/
def aaaText : List Char := "aaa".data

/-- Environment where the client is configured but every model reply
contains no JSON object. -/
def envNoJson : AdvanceEnv :=
  AdvanceEnv.mk true (fun _ => some noJsonReply) 5

/-- The ranked view of `chunk65` against the `aaa` question: cosine
similarity of the unit bucket vector with itself is 1. -/
noncomputable def rc65 : RankedChunk :=
  RankedChunk.mk 31 ("aaa".data) 21 ("policy.txt".data) 1

def jobC3 : AiJob := AiJob.mk 1 1 1 none JobStatus.RUNNING 1 0 0 none (some 4) none

/-- Store for the completion counterexample: one question, one completed
document, no suggestions, one RUNNING job. -/
noncomputable def storeC3 : Store :=
  Store.mk [jobC3] [] [Question.mk 11 1 aaaText] [doc65]

/-- Six questions whose text is `aaa`. -/
def qsC9 : List Question :=
  [Question.mk 11 1 aaaText, Question.mk 12 1 aaaText, Question.mk 13 1 aaaText,
   Question.mk 14 1 aaaText, Question.mk 15 1 aaaText, Question.mk 16 1 aaaText]

/-- Store for the counter-overflow trace: six questions, one completed
document, no suggestions, no jobs yet. -/
noncomputable def storeC9 : Store :=
  Store.mk [] [] qsC9 [doc65]

def jobC9a : AiJob := AiJob.mk 10 1 1 none JobStatus.PENDING 6 0 0 none none none

def jobC9b : AiJob := AiJob.mk 10 1 1 none JobStatus.RUNNING 6 0 0 none (some 5) none

def jobC9c : AiJob := AiJob.mk 10 1 1 none JobStatus.RUNNING 6 0 5 none (some 5) none

def jobC9d : AiJob := AiJob.mk 10 1 1 none JobStatus.RUNNING 6 0 10 none (some 5) none

/-- The trace stores: after job creation, after the PENDING→RUNNING flip,
and after the first advance call. -/
noncomputable def storeC9a : Store := Store.mk [jobC9a] [] qsC9 [doc65]

noncomputable def storeC9b : Store := Store.mk [jobC9b] [] qsC9 [doc65]

noncomputable def storeC9c : Store := Store.mk [jobC9c] [] qsC9 [doc65]

noncomputable def storeC9d : Store := Store.mk [jobC9d] [] qsC9 [doc65]

/-- A model reply with no JSON object, for the adapter counterexample. -/
def replyC1 : List Char :=
  "The excerpts do not mention incident reporting timelines.".data

/-- Store with one COMPLETED job, for the terminal-state witnesses. -/
def storeC2 : Store :=
  Store.mk [AiJob.mk 1 1 1 none JobStatus.COMPLETED 3 3 0 none (some 1) (some 2)] [] [] []

/-- Store with one RUNNING job and two questions, for the idempotent-create
witness. -/
def storeC6 : Store :=
  Store.mk [AiJob.mk 1 1 1 none JobStatus.RUNNING 2 0 0 none (some 1) none] []
    [Question.mk 11 1 aaaText, Question.mk 12 1 aaaText] []

/-- Two candidate chunks with empty embeddings (both cosine scores are 0),
tagged with increasing ids, for the ranking witness. -/
noncomputable def rankWitnessChunks : List NamedChunk :=
  [NamedChunk.mk 1 21 ("alpha".data) [] ("a.txt".data),
   NamedChunk.mk 2 21 ("beta".data) [] ("b.txt".data)]

/-! ## Theorems -/

/-! ### Chunker: termination (C4) and chunk-length bound (C5) -/

theorem lastIndexOfLe_le (l : List Char) (c : Char) (pos : ℕ) :
    lastIndexOfLe l c pos ≤ (pos : ℤ) := by
  induction pos with
  | zero => unfold lastIndexOfLe; split <;> omega
  | succ i ih =>
    unfold lastIndexOfLe
    split
    · omega
    · exact le_trans ih (by omega)

theorem length_dropWhile_le' (p : Char → Bool) (l : List Char) :
    (l.dropWhile p).length ≤ l.length := by
  induction l with
  | nil => simp
  | cons a t ih =>
    by_cases h : p a
    · simp only [List.dropWhile, h, List.length_cons]
      omega
    · simp [List.dropWhile, h]

theorem jsTrim_length_le (l : List Char) : (jsTrim l).length ≤ l.length := by
  unfold jsTrim
  calc ((l.dropWhile isJsWhitespace).reverse.dropWhile isJsWhitespace).reverse.length
      = ((l.dropWhile isJsWhitespace).reverse.dropWhile isJsWhitespace).length := by
        rw [List.length_reverse]
    _ ≤ (l.dropWhile isJsWhitespace).reverse.length := length_dropWhile_le' _ _
    _ = (l.dropWhile isJsWhitespace).length := by rw [List.length_reverse]
    _ ≤ l.length := length_dropWhile_le' _ _

theorem sliceList_length_le (l : List Char) (a b : ℕ) :
    (sliceList l a b).length ≤ b - a := by
  unfold sliceList
  rw [List.length_drop, List.length_take]
  omega

theorem chunkEndAt_le (text : List Char) (cs st : ℕ) :
    chunkEndAt text cs st ≤ st + cs + 1 := by
  have hp := lastIndexOfLe_le text '.' (min (st + cs) text.length)
  have hn := lastIndexOfLe_le text '\n' (min (st + cs) text.length)
  have hmax := max_le hp hn
  have hm : min (st + cs) text.length ≤ st + cs := min_le_left _ _
  simp only [chunkEndAt]
  split
  · split
    · next hbp => omega
    · omega
  · omega

theorem chunkEndAt_lower (text : List Char) (cs st : ℕ) (h1 : st < text.length) :
    2 * st + cs + 3 ≤ 2 * (chunkEndAt text cs st : ℤ) ∨
      chunkEndAt text cs st = st + cs ∨ chunkEndAt text cs st = text.length := by
  have hm1 : min (st + cs) text.length ≤ st + cs := min_le_left _ _
  have hm2 : min (st + cs) text.length ≤ text.length := min_le_right _ _
  have hm3 : min (st + cs) text.length = st + cs ∨ min (st + cs) text.length = text.length := by
    rcases Nat.le_total (st + cs) text.length with h | h
    · exact Or.inl (min_eq_left h)
    · exact Or.inr (min_eq_right h)
  simp only [chunkEndAt]
  split
  · next hmin =>
    split
    · next hbp => left; omega
    · right; left
      rcases hm3 with h | h
      · exact h
      · omega
  · next hmin =>
    right; right
    rcases hm3 with h | h
    · omega
    · exact h

theorem chunkStep_content_le (text : List Char) (cs ov st : ℕ) (em : List ChunkResult)
    (o : Option ℕ) (h : chunkStep text cs ov st = (em, o)) :
    ∀ cr ∈ em, cr.content.length ≤ cs + 1 := by
  have hend := chunkEndAt_le text cs st
  have hsl := sliceList_length_le text st (chunkEndAt text cs st)
  have htr := jsTrim_length_le (sliceList text st (chunkEndAt text cs st))
  simp only [chunkStep] at h
  split at h
  · split at h <;>
    · simp only [Prod.mk.injEq] at h
      obtain ⟨rfl, -⟩ := h
      split
      · intro cr hcr
        simp only [List.mem_singleton] at hcr
        subst hcr
        simp only
        omega
      · intro cr hcr
        simp at hcr
  · simp only [Prod.mk.injEq] at h
    obtain ⟨rfl, -⟩ := h
    intro cr hcr
    simp at hcr

theorem chunkStep_progress (text : List Char) (cs ov st : ℕ) (em : List ChunkResult)
    (n : ℕ) (hcs : 2 * ov < cs) (h : chunkStep text cs ov st = (em, some n)) :
    st < n ∧ st < text.length := by
  simp only [chunkStep] at h
  split at h
  · next h1 =>
    refine ⟨?_, h1⟩
    split at h
    · simp at h
    · next hbrk =>
      simp only [Prod.mk.injEq, Option.some.injEq] at h
      obtain ⟨-, rfl⟩ := h
      rcases chunkEndAt_lower text cs st h1 with hlow | hmid | hlen <;> omega
  · simp at h

theorem chunkTextGo_isSome (text : List Char) (cs ov : ℕ) (hcs : 2 * ov < cs) :
    ∀ fuel st, text.length - st < fuel → (chunkTextGo text cs ov fuel st).isSome := by
  intro fuel
  induction fuel with
  | zero => intro st h; omega
  | succ fuel ih =>
    intro st hst
    unfold chunkTextGo
    rcases hstep : chunkStep text cs ov st with ⟨em, o⟩
    rcases o with - | n
    · simp
    · have hp := chunkStep_progress text cs ov st em n hcs hstep
      have hrec := ih n (by omega)
      rcases hgo : chunkTextGo text cs ov fuel n with - | v
      · rw [hgo] at hrec; simp at hrec
      · simp [hgo]

/-- C4 (amended): `chunkText` is a pure function of its arguments
(determinism and absence of I/O are definitional in this embedding), and
its loop terminates on every input whenever `2 * overlap < chunkSize` —
which holds for every configuration the code uses (the default
`(1000, 200)` and the ingestion call `(1500, 200)`).  When
`overlap ≥ chunkSize` the loop can instead run forever, see the
counterexample. -/
theorem chunkText_terminates_of_overlap_small (text : List Char) (chunkSize overlap : ℕ)
    (hcs : 2 * overlap < chunkSize) : (chunkText text chunkSize overlap).isSome :=
  chunkTextGo_isSome text chunkSize overlap hcs (text.length + 1) 0 (by omega)

/-- Witness for `chunkText_terminates_of_overlap_small` at the default
configuration on a small text. -/
theorem chunkText_terminates_witness :
    2 * 200 < 1000 ∧ (chunkText ("hello. world".data) 1000 200).isSome :=
  ⟨by norm_num, chunkText_terminates_of_overlap_small ("hello. world".data) 1000 200 (by norm_num)⟩

theorem chunkTextGo_tenAs_none :
    ∀ fuel, chunkTextGo (List.replicate 10 'a') 2 5 fuel 0 = none := by
  intro fuel
  induction fuel with
  | zero => rfl
  | succ fuel ih =>
    have hstep : chunkStep (List.replicate 10 'a') 2 5 0 =
        ([ChunkResult.mk ('a' :: 'a' :: []) 0 2], some 0) := by decide
    unfold chunkTextGo
    rw [hstep]
    show Option.map _ (chunkTextGo (List.replicate 10 'a') 2 5 fuel 0) = none
    rw [ih]
    rfl

/-- C4 counterexample: on ten `a`s with `chunkSize = 2` and `overlap = 5`
the loop never exits — `startIndex` is recomputed as `2 - 5`, clamped to
`0`, and the break guard `0 ≥ 10 - 5` never fires, so the claim that
`chunkText` terminates for every chunk size and overlap is false. -/
theorem chunkText_nontermination_counterexample :
    ¬ chunkTextTerminates (List.replicate 10 'a') 2 5 := by
  rintro ⟨fuel, hsome⟩
  rw [chunkTextGo_tenAs_none fuel] at hsome
  simp at hsome

theorem chunkTextGo_content_le (text : List Char) (cs ov : ℕ) :
    ∀ fuel st l, chunkTextGo text cs ov fuel st = some l →
      ∀ cr ∈ l, cr.content.length ≤ cs + 1 := by
  intro fuel
  induction fuel with
  | zero => intro st l h; simp [chunkTextGo] at h
  | succ fuel ih =>
    intro st l h
    unfold chunkTextGo at h
    rcases hstep : chunkStep text cs ov st with ⟨em, o⟩
    rw [hstep] at h
    have hem := chunkStep_content_le text cs ov st em o hstep
    rcases o with - | n
    · simp only [Option.some.injEq] at h
      subst h
      exact hem
    · simp only [Option.map_eq_some'] at h
      obtain ⟨rest, hrest, rfl⟩ := h
      intro cr hcr
      rcases List.mem_append.mp hcr with hin | hin
      · exact hem cr hin
      · exact ih n rest hrest cr hin

/-- C5 (amended): every chunk produced by `chunkText` has content of
length at most `chunkSize + 1`.  The extra character comes from the
sentence realignment `chunkEnd = breakPoint + 1`: `lastIndexOf('.',
endIndex)` searches from `endIndex` inclusively, so a terminator sitting
exactly at the window boundary yields a chunk one character longer than
the configured size; the claimed bound `≤ chunkSize` fails there, see the
counterexample. -/
theorem chunk_length_le_size_succ (text : List Char) (chunkSize overlap : ℕ)
    (l : List ChunkResult) (h : chunkText text chunkSize overlap = some l) :
    ∀ cr ∈ l, cr.content.length ≤ chunkSize + 1 :=
  chunkTextGo_content_le text chunkSize overlap (text.length + 1) 0 l h

/-- Witness for `chunk_length_le_size_succ` on the concrete counterexample
text: every chunk length is at most `4 + 1`. -/
theorem chunk_length_le_size_succ_witness :
    (((chunkText ("aaaa.bbbb".data) 4 2).getD []).all
      (fun cr => cr.content.length ≤ 4 + 1)) = true := by
  have h : chunkText ("aaaa.bbbb".data) 4 2 =
      some [ChunkResult.mk ("aaaa.".data) 0 5,
            ChunkResult.mk ("a.bb".data) 3 7,
            ChunkResult.mk ("bbbb".data) 5 9] := by decide
  have hb := chunk_length_le_size_succ ("aaaa.bbbb".data) 4 2 _ h
  rw [h]
  simp only [Option.getD_some, List.all_eq_true, decide_eq_true_eq]
  exact fun cr hcr => hb cr hcr

/-- C5 counterexample: chunking `aaaa.bbbb` with `chunkSize = 4`,
`overlap = 2` emits the chunk `aaaa.` of length 5 > 4 — the realigned cut
`breakPoint + 1` lies one past the window, so "every chunk length ≤
configured size" is false. -/
theorem chunk_length_exceeds_size_counterexample :
    ((chunkText ("aaaa.bbbb".data) 4 2).getD []).any
      (fun cr => 4 < cr.content.length) = true := by decide

/-! ### Ranking: top-K size, descending order, stable ties (C7) -/

theorem mem_insertByScore (x a : RankedChunk) (l : List RankedChunk)
    (h : a ∈ insertByScore x l) : a = x ∨ a ∈ l := by
  induction l with
  | nil => simpa [insertByScore] using h
  | cons y ys ih =>
    unfold insertByScore at h
    split at h
    · rcases List.mem_cons.mp h with rfl | h2
      · exact Or.inr (List.mem_cons_self _ _)
      · rcases ih h2 with h3 | h3
        · exact Or.inl h3
        · exact Or.inr (List.mem_cons_of_mem _ h3)
    · rcases List.mem_cons.mp h with rfl | h2
      · exact Or.inl rfl
      · exact Or.inr h2

theorem insertByScore_sorted (x : RankedChunk) (l : List RankedChunk)
    (h : l.Pairwise scoreGE) : (insertByScore x l).Pairwise scoreGE := by
  induction l with
  | nil => simp [insertByScore, List.Pairwise.nil]
  | cons y ys ih =>
    rcases List.pairwise_cons.mp h with ⟨hy, hys⟩
    unfold insertByScore
    split
    · next hle =>
      refine List.pairwise_cons.mpr ⟨?_, ih hys⟩
      intro a ha
      rcases mem_insertByScore x a ys ha with rfl | ha2
      · exact hle
      · exact hy a ha2
    · next hgt =>
      refine List.pairwise_cons.mpr ⟨?_, h⟩
      intro a ha
      rcases List.mem_cons.mp ha with rfl | ha2
      · exact le_of_lt (lt_of_not_le hgt)
      · exact le_trans (hy a ha2) (le_of_lt (lt_of_not_le hgt))

theorem insertByScore_stable (x : RankedChunk) (l : List RankedChunk)
    (h : l.Pairwise scoreStable) (hid : ∀ y ∈ l, y.id < x.id) :
    (insertByScore x l).Pairwise scoreStable := by
  induction l with
  | nil => simp [insertByScore, List.Pairwise.nil, scoreStable]
  | cons y ys ih =>
    rcases List.pairwise_cons.mp h with ⟨hy, hys⟩
    unfold insertByScore
    split
    · next hle =>
      refine List.pairwise_cons.mpr ⟨?_, ih hys (fun a ha => hid a (List.mem_cons_of_mem _ ha))⟩
      intro a ha
      rcases mem_insertByScore x a ys ha with rfl | ha2
      · rcases lt_or_eq_of_le hle with hlt | heq
        · exact Or.inl hlt
        · exact Or.inr ⟨heq.symm, hid y (List.mem_cons_self _ _)⟩
      · exact hy a ha2
    · next hgt =>
      refine List.pairwise_cons.mpr ⟨?_, h⟩
      intro a ha
      rcases List.mem_cons.mp ha with rfl | ha2
      · exact Or.inl (lt_of_not_le hgt)
      · rcases hy a ha2 with hlt | ⟨heq, -⟩
        · exact Or.inl (lt_trans hlt (lt_of_not_le hgt))
        · exact Or.inl (heq ▸ lt_of_not_le hgt)

theorem foldl_insert_sorted (l acc : List RankedChunk) (hacc : acc.Pairwise scoreGE) :
    (l.foldl (fun acc x => insertByScore x acc) acc).Pairwise scoreGE := by
  induction l generalizing acc with
  | nil => simpa using hacc
  | cons x xs ih =>
    simp only [List.foldl_cons]
    exact ih _ (insertByScore_sorted x acc hacc)

theorem foldl_insert_stable (l acc : List RankedChunk)
    (hacc : acc.Pairwise scoreStable)
    (hcross : ∀ a ∈ acc, ∀ b ∈ l, a.id < b.id)
    (hl : l.Pairwise (fun a b => a.id < b.id)) :
    (l.foldl (fun acc x => insertByScore x acc) acc).Pairwise scoreStable := by
  induction l generalizing acc with
  | nil => simpa using hacc
  | cons x xs ih =>
    rcases List.pairwise_cons.mp hl with ⟨hx, hxs⟩
    simp only [List.foldl_cons]
    refine ih _ (insertByScore_stable x acc hacc
      (fun y hy => hcross y hy x (List.mem_cons_self _ _))) ?_ hxs
    intro a ha b hb
    rcases mem_insertByScore x a acc ha with rfl | ha2
    · exact hx b hb
    · exact hcross a ha2 b (List.mem_cons_of_mem _ hb)

/-- C7: the ranking step `.map(score).sort((a, b) => b.relevanceScore -
a.relevanceScore).slice(0, 5)` returns at most `K = 5` items in descending
score order; and (JS `sort` being stable) when the candidates carry
strictly increasing `id` tags, equal-score items keep their input order:
the output is sorted by score descending with ties by ascending id. -/
theorem rankTop5_spec (queryEmbedding : List ℝ) (chunks : List NamedChunk) :
    (rankTop5 queryEmbedding chunks).length ≤ 5
    ∧ (rankTop5 queryEmbedding chunks).Pairwise scoreGE
    ∧ ((scoreChunks queryEmbedding chunks).Pairwise (fun a b => a.id < b.id) →
        (rankTop5 queryEmbedding chunks).Pairwise scoreStable) := by
  refine ⟨List.length_take_le .., ?_, ?_⟩
  · exact (foldl_insert_sorted (scoreChunks queryEmbedding chunks) []
      (List.Pairwise.nil)).sublist (List.take_sublist ..)
  · intro hids
    exact (foldl_insert_stable (scoreChunks queryEmbedding chunks) []
      List.Pairwise.nil (by simp) hids).sublist (List.take_sublist ..)

/-- Witness for `rankTop5_spec` on two concrete candidates with increasing
ids; the stability hypothesis is discharged concretely. -/
theorem rankTop5_spec_witness :
    (rankTop5 [] rankWitnessChunks).length ≤ 5
    ∧ (rankTop5 [] rankWitnessChunks).Pairwise scoreGE
    ∧ (rankTop5 [] rankWitnessChunks).Pairwise scoreStable := by
  refine ⟨(rankTop5_spec [] rankWitnessChunks).1, (rankTop5_spec [] rankWitnessChunks).2.1,
    (rankTop5_spec [] rankWitnessChunks).2.2 ?_⟩
  simp only [scoreChunks, rankWitnessChunks, List.map_cons, List.map_nil]
  refine List.pairwise_cons.mpr ⟨?_, ?_⟩
  · intro b hb
    simp only [List.mem_singleton] at hb
    subst hb
    norm_num
  · simp

/-! ### Embedder: bucket accumulation, supports, and collision behavior (C8) -/

theorem bucketFold_eq (ps : List (List Char × ℕ)) (init : Fin 256 → ℕ) (i : Fin 256) :
    (ps.foldl (fun emb p => Function.update emb (hashWord p.1) (emb (hashWord p.1) + p.2))
        init) i =
      init i + ((ps.filter (fun p => hashWord p.1 = i)).map (fun p => p.2)).sum := by
  induction ps generalizing init with
  | nil => simp
  | cons p ps ih =>
    simp only [List.foldl_cons]
    rw [ih]
    by_cases h : hashWord p.1 = i
    · subst h
      simp [List.filter_cons, Function.update_apply]
      omega
    · have h' : ¬ i = hashWord p.1 := fun hc => h hc.symm
      simp [List.filter_cons, h, h', Function.update_apply]

theorem bumpFreq_key (acc : List (List Char × ℕ)) (w : List Char) (p : List Char × ℕ)
    (h : p ∈ bumpFreq acc w) : p.1 = w ∨ ∃ q ∈ acc, q.1 = p.1 := by
  unfold bumpFreq at h
  split at h
  · obtain ⟨q, hq, hqp⟩ := List.mem_map.mp h
    right
    refine ⟨q, hq, ?_⟩
    by_cases hw : q.1 = w
    · rw [if_pos hw] at hqp; rw [← hqp]
    · rw [if_neg hw] at hqp; rw [hqp]
  · rcases List.mem_append.mp h with h2 | h2
    · exact Or.inr ⟨p, h2, rfl⟩
    · simp only [List.mem_singleton] at h2
      subst h2
      exact Or.inl rfl

theorem foldl_bumpFreq_key (ws : List (List Char)) (acc : List (List Char × ℕ))
    (p : List Char × ℕ) (h : p ∈ ws.foldl bumpFreq acc) :
    (∃ q ∈ acc, q.1 = p.1) ∨ p.1 ∈ ws := by
  induction ws generalizing acc with
  | nil => exact Or.inl ⟨p, by simpa using h, rfl⟩
  | cons w ws ih =>
    simp only [List.foldl_cons] at h
    rcases ih (bumpFreq acc w) h with ⟨q, hq, hqp⟩ | h2
    · rcases bumpFreq_key acc w q hq with h3 | ⟨r, hr, hrq⟩
      · exact Or.inr (by rw [← hqp, h3]; exact List.mem_cons_self _ _)
      · exact Or.inl ⟨r, hr, hrq.trans hqp⟩
    · exact Or.inr (List.mem_cons_of_mem _ h2)

theorem mem_wordFreq_key (ws : List (List Char)) (p : List Char × ℕ)
    (h : p ∈ wordFreq ws) : p.1 ∈ ws := by
  rcases foldl_bumpFreq_key ws [] p h with ⟨q, hq, -⟩ | h2
  · simp at hq
  · exact h2

theorem bumpFreq_pos (acc : List (List Char × ℕ)) (w : List Char)
    (hacc : ∀ p ∈ acc, 0 < p.2) : ∀ p ∈ bumpFreq acc w, 0 < p.2 := by
  intro p hp
  unfold bumpFreq at hp
  split at hp
  · obtain ⟨q, hq, hqp⟩ := List.mem_map.mp hp
    by_cases hw : q.1 = w
    · rw [if_pos hw] at hqp
      rw [← hqp]
      omega
    · rw [if_neg hw] at hqp
      rw [← hqp]
      exact hacc q hq
  · rcases List.mem_append.mp hp with h2 | h2
    · exact hacc p h2
    · simp only [List.mem_singleton] at h2
      subst h2
      omega

theorem wordFreq_pos (ws : List (List Char)) : ∀ p ∈ wordFreq ws, 0 < p.2 := by
  have aux : ∀ (l : List (List Char)) (acc : List (List Char × ℕ)),
      (∀ p ∈ acc, 0 < p.2) → ∀ p ∈ l.foldl bumpFreq acc, 0 < p.2 := by
    intro l
    induction l with
    | nil => intro acc hacc p hp; exact hacc p (by simpa using hp)
    | cons w ws ih =>
      intro acc hacc p hp
      simp only [List.foldl_cons] at hp
      exact ih (bumpFreq acc w) (bumpFreq_pos acc w hacc) p hp
  exact aux ws [] (by simp)

theorem exists_wordFreq_key (ws : List (List Char)) (w : List Char) (h : w ∈ ws) :
    ∃ k, (w, k) ∈ wordFreq ws := by
  have bump_self : ∀ (acc : List (List Char × ℕ)), ∃ k, (w, k) ∈ bumpFreq acc w := by
    intro acc
    unfold bumpFreq
    split
    · next hany =>
      obtain ⟨q, hq, hqw⟩ := List.any_eq_true.mp hany
      refine ⟨q.2 + 1, ?_⟩
      have : (if q.1 = w then (q.1, q.2 + 1) else q) = (w, q.2 + 1) := by
        rw [if_pos (by exact of_decide_eq_true hqw), of_decide_eq_true hqw]
      exact this ▸ List.mem_map_of_mem _ hq
    · exact ⟨1, List.mem_append_right _ (List.mem_singleton.mpr rfl)⟩
  have bump_keep : ∀ (acc : List (List Char × ℕ)) (w' : List Char),
      (∃ k, (w, k) ∈ acc) → ∃ k, (w, k) ∈ bumpFreq acc w' := by
    intro acc w' ⟨k, hk⟩
    unfold bumpFreq
    split
    · by_cases hw : w = w'
      · exact ⟨k + 1, List.mem_map.mpr ⟨(w, k), hk, by rw [if_pos (by exact hw)]⟩⟩
      · exact ⟨k, List.mem_map.mpr ⟨(w, k), hk, by rw [if_neg (by exact hw)]⟩⟩
    · exact ⟨k, List.mem_append_left _ hk⟩
  have aux : ∀ (l : List (List Char)) (acc : List (List Char × ℕ)),
      w ∈ l ∨ (∃ k, (w, k) ∈ acc) → ∃ k, (w, k) ∈ l.foldl bumpFreq acc := by
    intro l
    induction l with
    | nil =>
      rintro acc (h2 | h2)
      · simp at h2
      · simpa using h2
    | cons w' ws ih =>
      rintro acc (h2 | h2)
      · rcases List.mem_cons.mp h2 with rfl | h3
        · exact ih _ (Or.inr (bump_self acc))
        · exact ih _ (Or.inl h3)
      · exact ih _ (Or.inr (bump_keep acc w' h2))
  exact aux ws [] (Or.inl h)

theorem raw_pos_of_token (t : List Char) (w : List Char) (h : w ∈ tokenize t) :
    0 < rawEmbedding t (hashWord w) := by
  obtain ⟨k, hk⟩ := exists_wordFreq_key (tokenize t) w h
  have hkpos : 0 < k := wordFreq_pos (tokenize t) (w, k) hk
  unfold rawEmbedding
  rw [bucketFold_eq]
  have hmem : (w, k) ∈ (wordFreq (tokenize t)).filter
      (fun p => hashWord p.1 = hashWord w) := by
    exact List.mem_filter.mpr ⟨hk, by simp⟩
  have hle : k ≤ (((wordFreq (tokenize t)).filter
      (fun p => hashWord p.1 = hashWord w)).map (fun p => p.2)).sum :=
    List.single_le_sum (fun x _ => Nat.zero_le x) _ (List.mem_map_of_mem _ hmem)
  omega

theorem raw_support (t : List Char) (i : Fin 256) (h : rawEmbedding t i ≠ 0) :
    ∃ w ∈ tokenize t, hashWord w = i := by
  unfold rawEmbedding at h
  rw [bucketFold_eq] at h
  simp only [Nat.zero_add] at h
  have hne : (wordFreq (tokenize t)).filter (fun p => hashWord p.1 = i) ≠ [] := by
    intro hnil
    rw [hnil] at h
    simp at h
  obtain ⟨p, hp⟩ := List.exists_mem_of_ne_nil _ hne
  have := List.mem_filter.mp hp
  exact ⟨p.1, mem_wordFreq_key _ _ this.1, by simpa using this.2⟩

theorem magnitudeOf_pos_iff (t : List Char) :
    0 < magnitudeOf t ↔ ∃ i, rawEmbedding t i ≠ 0 := by
  unfold magnitudeOf
  rw [List.map_ofFn, List.sum_ofFn, Real.sqrt_pos]
  simp only [Function.comp_apply]
  constructor
  · intro hpos
    by_contra hall
    push_neg at hall
    rw [Finset.sum_eq_zero (fun j _ => by rw [hall j]; simp)] at hpos
    exact lt_irrefl 0 hpos
  · rintro ⟨i, hi⟩
    have hpos : (0 : ℝ) < (rawEmbedding t i : ℝ) := by
      exact_mod_cast Nat.pos_of_ne_zero hi
    exact Finset.sum_pos' (fun j _ => mul_self_nonneg _)
      ⟨i, Finset.mem_univ i, mul_pos hpos hpos⟩

theorem gse_entries (t : List Char) :
    generateSimpleEmbedding t = List.ofFn (fun i : Fin 256 =>
      if 0 < magnitudeOf t then (rawEmbedding t i : ℝ) / magnitudeOf t
      else (rawEmbedding t i : ℝ)) := by
  simp only [generateSimpleEmbedding]
  split
  · next hpos =>
    rw [List.map_ofFn]
    exact List.ofFn_inj.mpr (funext (fun i => by
      simp only [Function.comp_apply, if_pos hpos]))
  · next hneg =>
    exact List.ofFn_inj.mpr (funext (fun i => by simp only [if_neg hneg]))

theorem gse_of_tokens_nil (t : List Char) (h : tokenize t = []) :
    generateSimpleEmbedding t = List.ofFn (fun _ : Fin 256 => (0 : ℝ)) := by
  have hraw : ∀ i, rawEmbedding t i = 0 := by
    intro i
    unfold rawEmbedding
    rw [h]
    simp [wordFreq]
  have hm : ¬ 0 < magnitudeOf t := by
    rw [magnitudeOf_pos_iff]
    push_neg
    intro i
    simp [hraw i]
  rw [gse_entries]
  congr 1
  funext i
  rw [if_neg hm, hraw i]
  simp

/-- C8 (amended): if the retained-token sets of two texts hash to disjoint
bucket sets, their embeddings under `generateSimpleEmbedding` coincide
only when both texts retain no token at all (both embeddings all-zero).
Disjointness of the token *vocabularies* themselves is not enough, because
the 256-bucket rolling hash collides across distinct words — see the
counterexample. -/
theorem embedding_eq_hash_disjoint (t1 t2 : List Char)
    (hdisj : ∀ w1 ∈ tokenize t1, ∀ w2 ∈ tokenize t2, hashWord w1 ≠ hashWord w2)
    (heq : generateSimpleEmbedding t1 = generateSimpleEmbedding t2) :
    tokenize t1 = [] ∧ tokenize t2 = [] := by
  rw [gse_entries, gse_entries] at heq
  have key := congrFun (List.ofFn_inj.mp heq)
  have hm1 : ¬ 0 < magnitudeOf t1 := by
    intro hm1
    by_cases hm2 : 0 < magnitudeOf t2
    · obtain ⟨i, hi⟩ := (magnitudeOf_pos_iff t1).mp hm1
      obtain ⟨w1, hw1, hh1⟩ := raw_support t1 i hi
      have hF1 : (rawEmbedding t1 i : ℝ) / magnitudeOf t1 ≠ 0 :=
        div_ne_zero (Nat.cast_ne_zero.mpr hi) (ne_of_gt hm1)
      have hkey := key i
      rw [if_pos hm1, if_pos hm2] at hkey
      have hr2 : rawEmbedding t2 i ≠ 0 := by
        intro h0
        rw [h0] at hkey
        exact hF1 (by rw [hkey]; simp)
      obtain ⟨w2, hw2, hh2⟩ := raw_support t2 i hr2
      exact hdisj w1 hw1 w2 hw2 (hh1.trans hh2.symm)
    · have hraw2 : ∀ j, rawEmbedding t2 j = 0 := by
        have := (magnitudeOf_pos_iff t2).not.mp hm2
        push_neg at this
        exact this
      have hraw1 : ∀ j, rawEmbedding t1 j = 0 := by
        intro j
        have hkey := key j
        rw [if_pos hm1, if_neg hm2, hraw2 j] at hkey
        have := div_eq_zero_iff.mp (by exact_mod_cast hkey)
        rcases this with h0 | h0
        · exact_mod_cast h0
        · exact absurd h0 (ne_of_gt hm1)
      obtain ⟨i, hi⟩ := (magnitudeOf_pos_iff t1).mp hm1
      exact hi (hraw1 i)
  have hraw1 : ∀ j, rawEmbedding t1 j = 0 := by
    have := (magnitudeOf_pos_iff t1).not.mp hm1
    push_neg at this
    exact this
  have hm2 : ¬ 0 < magnitudeOf t2 := by
    intro hm2
    have hraw2 : ∀ j, rawEmbedding t2 j = 0 := by
      intro j
      have hkey := key j
      rw [if_neg hm1, if_pos hm2, hraw1 j] at hkey
      have := div_eq_zero_iff.mp (by exact_mod_cast hkey.symm)
      rcases this with h0 | h0
      · exact_mod_cast h0
      · exact absurd h0 (ne_of_gt hm2)
    obtain ⟨i, hi⟩ := (magnitudeOf_pos_iff t2).mp hm2
    exact hi (hraw2 i)
  have hraw2 : ∀ j, rawEmbedding t2 j = 0 := by
    have := (magnitudeOf_pos_iff t2).not.mp hm2
    push_neg at this
    exact this
  constructor
  · by_contra hne
    obtain ⟨w, hw⟩ := List.exists_mem_of_ne_nil _ hne
    exact absurd (hraw1 (hashWord w)) (raw_pos_of_token t1 w hw).ne'
  · by_contra hne
    obtain ⟨w, hw⟩ := List.exists_mem_of_ne_nil _ hne
    exact absurd (hraw2 (hashWord w)) (raw_pos_of_token t2 w hw).ne'

set_option maxRecDepth 4000 in
/-- Witness for `embedding_eq_hash_disjoint`: two all-short-token texts
have equal (all-zero) embeddings, and indeed retain no tokens. -/
theorem embedding_eq_hash_disjoint_witness :
    tokenize ("a".data) = [] ∧ tokenize ("b".data) = [] :=
  embedding_eq_hash_disjoint ("a".data) ("b".data) (by decide)
    (by rw [gse_of_tokens_nil ("a".data) (by decide), gse_of_tokens_nil ("b".data) (by decide)])

set_option maxRecDepth 40000 in
/-- C8 counterexample: `aaa` and `aaaaaaaaaaaaaaaaaaa` (19 `a`s) have
disjoint retained vocabularies and each retains a token, yet both hash to
bucket 65 (the rolling map `h ↦ (31 h + 97) mod 256` has period 16), so
their embeddings are identical unit vectors — "never identical unless both
empty/all-short-token" is false. -/
theorem embedding_collision_counterexample :
    ((tokenize ("aaa".data)).filter
        (fun w => (tokenize (List.replicate 19 'a')).contains w)) = []
    ∧ tokenize ("aaa".data) ≠ []
    ∧ tokenize (List.replicate 19 'a') ≠ []
    ∧ generateSimpleEmbedding ("aaa".data) =
        generateSimpleEmbedding (List.replicate 19 'a') := by
  refine ⟨by decide, by decide, by decide, ?_⟩
  have h0 : ∀ i : Fin 256,
      rawEmbedding ("aaa".data) i = rawEmbedding (List.replicate 19 'a') i := by decide
  have hraw : rawEmbedding ("aaa".data) = rawEmbedding (List.replicate 19 'a') :=
    funext h0
  simp only [generateSimpleEmbedding, magnitudeOf, hraw]

/-! ### LLM adapter parse behavior (C1) -/

/-- C1 (amended): when the model reply contains no extractable JSON object,
or its JSON fails to parse, the batch adapter `analyzeQuestion` returns
`null` — never a raised parse exception and never a degraded structured
result; its caller then counts the question as failed.  The degraded
fallback the claim describes (label `INSUFFICIENT_INFO`, confidence 0.5,
raw reply text as reasoning) exists only in the interactive
`analyze-question` route's response parsing. -/
theorem analyzeQuestion_parse_fallback_amended (replyText : List Char)
    (chunks : List RankedChunk) :
    (extractJsonSpan replyText = none → analyzeQuestionResult chunks replyText = none)
    ∧ (∀ span, extractJsonSpan replyText = some span → jsonParse span = none →
        analyzeQuestionResult chunks replyText = none)
    ∧ (extractJsonSpan replyText = none →
        parseInteractiveResponse replyText = interactiveFallback replyText) := by
  refine ⟨?_, ?_, ?_⟩
  · intro h
    simp only [analyzeQuestionResult, h]
  · intro span hs hp
    simp only [analyzeQuestionResult, hs, hp]
  · intro h
    simp only [parseInteractiveResponse, h]

/-- Witness for `analyzeQuestion_parse_fallback_amended` on a concrete
JSON-free reply. -/
theorem analyzeQuestion_parse_fallback_witness :
    analyzeQuestionResult [] replyC1 = none
    ∧ parseInteractiveResponse replyC1 = interactiveFallback replyC1 :=
  ⟨(analyzeQuestion_parse_fallback_amended replyC1 []).1 (by decide),
   (analyzeQuestion_parse_fallback_amended replyC1 []).2.2 (by decide)⟩

/-- C1 counterexample: on a reply without any JSON object, the adapter
(with a configured client) returns `null` — not the claimed degraded
result with label `INSUFFICIENT_INFO`, confidence 0.5 and the raw text as
reasoning; the jobs route then increments `failedQuestions` and persists
nothing. -/
theorem analyzeQuestion_noJson_counterexample :
    analyzeQuestion true (some replyC1) ("q".data) [] = none := by
  rfl

/-! ### Text extraction totality (C10) -/

/-- C10 (amended): for every byte buffer and every declared file type
whose *lowercasing* is neither `pdf` nor `application/pdf`, `extractText`
returns the total lossy UTF-8 decoding of the buffer and never throws —
the `Unsupported file type` branch is unreachable because the decode is
total.  The case normalization matters: the literal claim, quantified over
types other than the exact strings `pdf`/`application/pdf`, fails at the
type `PDF`, which is routed to PDF extraction and can throw. -/
theorem extractText_nonpdf_utf8 (pdfParse : List ℕ → Option (List Char))
    (buffer : List ℕ) (fileType : List Char)
    (h1 : jsToLower fileType ≠ ("pdf".data))
    (h2 : jsToLower fileType ≠ ("application/pdf".data)) :
    extractText pdfParse buffer fileType = Except.ok (utf8Decode buffer) := by
  simp only [extractText]
  rw [if_neg (by simp [h1, h2])]
  split
  · rfl
  · split
    · rfl
    · rfl

/-- Witness for `extractText_nonpdf_utf8` on a two-byte `txt` buffer. -/
theorem extractText_nonpdf_utf8_witness :
    extractText (fun _ => none) [104, 105] ("txt".data) =
      Except.ok (utf8Decode [104, 105]) :=
  extractText_nonpdf_utf8 (fun _ => none) [104, 105] ("txt".data) (by decide) (by decide)

/-- C10 counterexample: the declared type `PDF` is not one of the literal
strings `pdf`/`application/pdf`, yet `extractText` lowercases it into the
PDF branch, which throws when the PDF library rejects the buffer — so the
claim that every non-`pdf`/`application/pdf` type gets a total UTF-8
decode is false as stated. -/
theorem extractText_pdf_case_counterexample :
    extractText (fun _ => none) [] ("PDF".data) =
      Except.error ("Failed to extract text from PDF".data) := by
  rfl

/-! ### Job store basics -/

theorem find_map_update (l : List AiJob) (jobId : ℕ) (f : AiJob → AiJob)
    (hf : ∀ j, (f j).id = j.id) :
    (l.map (fun j => if j.id = jobId then f j else j)).find? (fun j => j.id = jobId) =
      (l.find? (fun j => j.id = jobId)).map f := by
  induction l with
  | nil => simp
  | cons j t ih =>
    by_cases h : j.id = jobId
    · simp only [List.map_cons, if_pos h, List.find?_cons]
      simp [hf j, h]
    · simp only [List.map_cons, if_neg h, List.find?_cons]
      simp only [h, decide_False]
      exact ih

theorem findJob_updateJob (s : Store) (jobId : ℕ) (f : AiJob → AiJob)
    (hf : ∀ j, (f j).id = j.id) :
    findJob (updateJob s jobId f) jobId = (findJob s jobId).map f := by
  unfold findJob updateJob
  exact find_map_update s.jobs jobId f hf

/-! ### Terminal jobs: advance is a no-op, cancel is unconditional (C2) -/

/-- C2 (amended): an advance call on a job in a terminal status
(COMPLETED, FAILED or CANCELLED) is a no-op returning the job's last
state; but cancellation is *not* restricted to non-terminal jobs — the
DELETE handler updates unconditionally, so it moves even a COMPLETED or
FAILED job to CANCELLED, stamping a new completion time. -/
theorem terminal_advance_noop_cancel_unconditional (env : AdvanceEnv) (s : Store)
    (jobId now : ℕ) (job : AiJob) (hfind : findJob s jobId = some job)
    (hterm : isTerminal job.status = true) :
    advanceJob env s jobId = (s, AdvanceOutcome.alreadyFinished job)
    ∧ (cancelJob s jobId now).2 =
        some { job with status := JobStatus.CANCELLED, completedAt := some now }
    ∧ (findJob (cancelJob s jobId now).1 jobId).map (fun j => j.status) =
        some JobStatus.CANCELLED := by
  refine ⟨?_, ?_, ?_⟩
  · simp only [advanceJob, hfind]
    rw [if_pos hterm]
  · simp only [cancelJob, hfind]
  · simp only [cancelJob, hfind]
    rw [findJob_updateJob s jobId
      (fun j => { j with status := JobStatus.CANCELLED, completedAt := some now })
      (fun j => rfl), hfind]
    rfl

/-- Witness for `terminal_advance_noop_cancel_unconditional` on a store
with one COMPLETED job. -/
theorem terminal_advance_noop_witness :
    advanceJob (AdvanceEnv.mk false (fun _ => none) 9) storeC2 1 =
      (storeC2, AdvanceOutcome.alreadyFinished
        (AiJob.mk 1 1 1 none JobStatus.COMPLETED 3 3 0 none (some 1) (some 2)))
    ∧ (cancelJob storeC2 1 9).2 =
        some (AiJob.mk 1 1 1 none JobStatus.CANCELLED 3 3 0 none (some 1) (some 9))
    ∧ (findJob (cancelJob storeC2 1 9).1 1).map (fun j => j.status) =
        some JobStatus.CANCELLED :=
  terminal_advance_noop_cancel_unconditional (AdvanceEnv.mk false (fun _ => none) 9)
    storeC2 1 9 (AiJob.mk 1 1 1 none JobStatus.COMPLETED 3 3 0 none (some 1) (some 2))
    (by decide) (by decide)

/-- C2 counterexample: cancelling an already COMPLETED job moves its
status to CANCELLED — the DELETE handler has no terminal-status guard, so
"no operation ever moves a job out of a terminal status" is false. -/
theorem cancel_overwrites_terminal_counterexample :
    ((findJob storeC2 1).map (fun j => j.status) = some JobStatus.COMPLETED)
    ∧ ((findJob (cancelJob storeC2 1 9).1 1).map (fun j => j.status) =
        some JobStatus.CANCELLED) := by
  decide

/-! ### Idempotent create while a non-terminal job exists (C6) -/

/-- C6: when the audit already has a PENDING or RUNNING job, the create
handler returns that job and leaves the store untouched — no duplicate is
created. -/
theorem createJob_idempotent_nonterminal (s : Store) (auditId orgId : ℕ)
    (chapterId : Option ℕ) (newId : ℕ) (existing : AiJob)
    (hfind : s.jobs.find? (fun j => j.auditId = auditId &&
      (j.status = JobStatus.PENDING || j.status = JobStatus.RUNNING)) = some existing) :
    createJob s auditId orgId chapterId newId = (s, existing, false) := by
  simp only [createJob, hfind]

/-- Witness for `createJob_idempotent_nonterminal` on a store with a
RUNNING job for audit 1. -/
theorem createJob_idempotent_witness :
    createJob storeC6 1 1 none 99 =
      (storeC6, AiJob.mk 1 1 1 none JobStatus.RUNNING 2 0 0 none (some 1) none, false) :=
  createJob_idempotent_nonterminal storeC6 1 1 none 99
    (AiJob.mk 1 1 1 none JobStatus.RUNNING 2 0 0 none (some 1) none) (by decide)

/-! ### Advance-call machinery: concrete score evaluation and the batch
equation shared by the completion (C3) and counter (C9) results -/

theorem zipWith_ofFn' {n : ℕ} (f : ℝ → ℝ → ℝ) (a b : Fin n → ℝ) :
    List.zipWith f (List.ofFn a) (List.ofFn b) = List.ofFn (fun i => f (a i) (b i)) := by
  induction n with
  | zero => simp
  | succ m ih =>
    rw [List.ofFn_succ, List.ofFn_succ, List.ofFn_succ, List.zipWith_cons_cons, ih]

theorem sum_ite65 :
    (∑ i : Fin 256, (if i = (65 : Fin 256) then (1 : ℝ) else 0)) = 1 := by
  rw [Finset.sum_ite_eq' Finset.univ (65 : Fin 256) (fun _ => (1 : ℝ))]
  simp

theorem e65R_self_products :
    ∀ i : Fin 256,
      (if i = (65 : Fin 256) then (1 : ℝ) else 0) * (if i = (65 : Fin 256) then (1 : ℝ) else 0)
        = (if i = (65 : Fin 256) then (1 : ℝ) else 0) := by
  intro i
  split <;> norm_num

set_option maxRecDepth 40000 in
theorem raw_aaa : ∀ i : Fin 256,
    rawEmbedding aaaText i = if i = (65 : Fin 256) then 1 else 0 := by
  decide

theorem comp_sq_e65 : ∀ i : Fin 256,
    ((fun v => v * v) ∘ fun i : Fin 256 => (if i = (65 : Fin 256) then (1 : ℝ) else 0)) i
      = if i = (65 : Fin 256) then (1 : ℝ) else 0 := fun i => by
  simp only [Function.comp_apply]
  exact e65R_self_products i

theorem magnitudeOf_aaa : magnitudeOf aaaText = 1 := by
  unfold magnitudeOf
  rw [List.map_ofFn, List.sum_ofFn]
  have hterm : ∀ i : Fin 256, ((fun v => v * v) ∘ fun i : Fin 256 =>
      ((rawEmbedding aaaText i : ℕ) : ℝ)) i = if i = (65 : Fin 256) then (1 : ℝ) else 0 := by
    intro i
    simp only [Function.comp_apply, raw_aaa i, apply_ite (fun n : ℕ => (n : ℝ)),
      Nat.cast_one, Nat.cast_zero]
    exact e65R_self_products i
  rw [Finset.sum_congr rfl (fun i _ => hterm i), sum_ite65, Real.sqrt_one]

theorem gse_aaa : generateSimpleEmbedding aaaText = e65R := by
  rw [gse_entries]
  unfold e65R
  refine List.ofFn_inj.mpr (funext (fun i => ?_))
  rw [if_pos (by rw [magnitudeOf_aaa]; norm_num), magnitudeOf_aaa, div_one, raw_aaa i,
    apply_ite (fun n : ℕ => (n : ℝ)), Nat.cast_one, Nat.cast_zero]

theorem cosine_e65_self : cosineSimilarity e65R e65R = 1 := by
  have hdot : (List.zipWith (fun x y => x * y) e65R e65R).sum = 1 := by
    unfold e65R
    rw [zipWith_ofFn', List.sum_ofFn,
      Finset.sum_congr rfl (fun i (_ : i ∈ Finset.univ) => e65R_self_products i), sum_ite65]
  have hnorm : ((e65R.map (fun v => v * v)).sum) = 1 := by
    unfold e65R
    rw [List.map_ofFn, List.sum_ofFn,
      Finset.sum_congr rfl (fun i (_ : i ∈ Finset.univ) => comp_sq_e65 i), sum_ite65]
  simp only [cosineSimilarity]
  rw [if_neg (by simp), hdot, hnorm, Real.sqrt_one, mul_one, if_pos one_pos, div_one]

theorem rankForQuestion_aaa : rankForQuestion aaaText [named65] = [rc65] := by
  unfold rankForQuestion rankTop5 scoreChunks named65
  rw [gse_aaa]
  simp only [List.map_cons, List.map_nil, cosine_e65_self]
  rfl

theorem processQuestion_fails_aaa (job : AiJob) (s : Store) (q : Question)
    (hq : q.text = aaaText) :
    processQuestion envNoJson job [named65] s q = (s, false) := by
  have hscore : ¬ rc65.relevanceScore < 0.05 := by
    unfold rc65
    norm_num
  have hana : analyzeQuestion envNoJson.clientAvailable (envNoJson.reply q.id) aaaText [rc65]
      = none := rfl
  simp only [processQuestion, hq, rankForQuestion_aaa]
  rw [if_neg hscore, hana]

theorem processBatch_fails_aaa (job : AiJob) (s : Store) (qs : List Question)
    (hqs : ∀ q ∈ qs, q.text = aaaText) :
    processBatch envNoJson job [named65] s qs = (s, 0, qs.length) := by
  induction qs generalizing s with
  | nil => rfl
  | cons q rest ih =>
    simp only [processBatch, processQuestion_fails_aaa job s q (hqs q (List.mem_cons_self _ _)),
      ih s (fun p hp => hqs p (List.mem_cons_of_mem _ hp))]
    simp

theorem processQuestion_jobs (env : AdvanceEnv) (job : AiJob) (chunks : List NamedChunk)
    (s : Store) (q : Question) :
    ((processQuestion env job chunks s q).1).jobs = s.jobs := by
  rcases hr : rankForQuestion q.text chunks with - | ⟨top, rest⟩
  · simp only [processQuestion, hr]
    rfl
  · simp only [processQuestion, hr]
    split
    · rfl
    · rcases hana : analyzeQuestion env.clientAvailable (env.reply q.id) q.text (top :: rest)
        with - | analysis
      · simp only [hana]
      · simp only [hana]
        rfl

theorem processBatch_jobs (env : AdvanceEnv) (job : AiJob) (chunks : List NamedChunk)
    (s : Store) (batch : List Question) :
    ((processBatch env job chunks s batch).1).jobs = s.jobs := by
  induction batch generalizing s with
  | nil => rfl
  | cons q rest ih =>
    simp only [processBatch]
    split <;>
      exact (ih (processQuestion env job chunks s q).1).trans
        (processQuestion_jobs env job chunks s q)

/-- The advance handler, on a live job whose audit still has unanalyzed
questions and whose organization has completed, chunked documents, runs
exactly one batch and finishes with the counter-and-status update. -/
theorem advanceJob_batch_eq (env : AdvanceEnv) (s : Store) (jobId : ℕ) (job : AiJob)
    (hfind : findJob s jobId = some job)
    (hterm : isTerminal job.status = false)
    (hclient : env.clientAvailable = true)
    (hne : (unanalyzedQuestions (markRunning env s jobId job) job).length ≠ 0)
    (hdocs : (completedDocs (markRunning env s jobId job) job.organizationId).length ≠ 0)
    (hchunks : (allChunksOf (completedDocs (markRunning env s jobId job)
      job.organizationId)).length ≠ 0) :
    advanceJob env s jobId =
      (let s1 := markRunning env s jobId job
       let toA := unanalyzedQuestions s1 job
       let res := processBatch env job (allChunksOf (completedDocs s1 job.organizationId))
         s1 (toA.take 5)
       let remaining := toA.length - (toA.take 5).length
       (updateJob res.1 jobId (fun j =>
         { j with
             processedQuestions := job.processedQuestions + res.2.1,
             failedQuestions := job.failedQuestions + res.2.2,
             status := if remaining = 0 then JobStatus.COMPLETED else JobStatus.RUNNING,
             completedAt := if remaining = 0 then some env.now else j.completedAt }),
        AdvanceOutcome.batchDone res.2.1 res.2.2 remaining (toA.take 5).length)) := by
  simp only [advanceJob, hfind]
  rw [if_neg (by simp [hterm])]
  rw [if_neg (by simp [hclient])]
  rw [if_neg hne, if_neg hdocs, if_neg hchunks]

theorem findJob_eq_of_jobs_eq (s s' : Store) (h : s.jobs = s'.jobs) (jobId : ℕ) :
    findJob s jobId = findJob s' jobId := by
  unfold findJob
  rw [h]

theorem findJob_markRunning (env : AdvanceEnv) (s : Store) (jobId : ℕ) (job : AiJob)
    (hfind : findJob s jobId = some job) :
    findJob (markRunning env s jobId job) jobId =
      some (if job.status = JobStatus.PENDING
        then { job with status := JobStatus.RUNNING, startedAt := some env.now } else job) := by
  unfold markRunning
  split
  · next h =>
    rw [findJob_updateJob _ _ _ ?hf, hfind]
    case hf => intro j; rfl
    rfl
  · next h =>
    rw [hfind]

/-! ### Completion check ignores in-batch failures (C3) -/

/-- C3 (amended): on a live advance call that reaches batch processing,
the final status is COMPLETED exactly when the unanalyzed set had at most
5 questions (the batch swallows it whole) — regardless of whether the
batch questions actually received suggestions.  `remaining` counts only
the questions beyond the batch, so a question whose LLM call fails in the
final batch leaves the job COMPLETED while the live unanalyzed set is
still nonempty; the claimed "COMPLETED only when the live set is empty"
is false, see the counterexample. -/
theorem advance_completed_iff_no_remainder (env : AdvanceEnv) (s : Store) (jobId : ℕ)
    (job : AiJob)
    (hfind : findJob s jobId = some job)
    (hterm : isTerminal job.status = false)
    (hclient : env.clientAvailable = true)
    (hne : (unanalyzedQuestions (markRunning env s jobId job) job).length ≠ 0)
    (hdocs : (completedDocs (markRunning env s jobId job) job.organizationId).length ≠ 0)
    (hchunks : (allChunksOf (completedDocs (markRunning env s jobId job)
      job.organizationId)).length ≠ 0) :
    ((findJob (advanceJob env s jobId).1 jobId).map (fun j => j.status)) =
      some (if (unanalyzedQuestions (markRunning env s jobId job) job).length ≤ 5
        then JobStatus.COMPLETED else JobStatus.RUNNING) := by
  simp only [advanceJob_batch_eq env s jobId job hfind hterm hclient hne hdocs hchunks]
  rw [findJob_updateJob _ _ _ ?hf]
  case hf => intro j; rfl
  rw [findJob_eq_of_jobs_eq _ (markRunning env s jobId job)
    (processBatch_jobs env job _ (markRunning env s jobId job) _) jobId]
  rw [findJob_markRunning env s jobId job hfind]
  simp only [Option.map_some']
  have hlen : ((unanalyzedQuestions (markRunning env s jobId job) job).length -
      ((unanalyzedQuestions (markRunning env s jobId job) job).take 5).length = 0) ↔
      ((unanalyzedQuestions (markRunning env s jobId job) job).length ≤ 5) := by
    rw [List.length_take]
    omega
  congr 1
  rw [if_congr hlen rfl rfl]

set_option maxRecDepth 100000 in
/-- Witness for `advance_completed_iff_no_remainder` on the concrete
single-question store: one question remains, `1 ≤ 5`, so the job completes
in one advance call. -/
theorem advance_completed_iff_witness :
    ((findJob (advanceJob envNoJson storeC3 1).1 1).map (fun j => j.status)) =
      some JobStatus.COMPLETED := by
  rw [advance_completed_iff_no_remainder envNoJson storeC3 1 jobC3 rfl rfl rfl
    (by decide) (by decide) (by decide)]
  decide

set_option maxRecDepth 100000 in
/-- C3 counterexample: one unanalyzed question whose LLM reply has no
JSON object — the advance call persists no suggestion and increments
`failedQuestions`, yet sets status COMPLETED because `remaining =
questionsToAnalyze.length - batch.length = 0`; the live unanalyzed set
still contains the question afterwards. -/
theorem advance_completes_despite_failure_counterexample :
    ((findJob (advanceJob envNoJson storeC3 1).1 1).map
      (fun j => (j.status, j.processedQuestions, j.failedQuestions))) =
        some (JobStatus.COMPLETED, 0, 1)
    ∧ ((advanceJob envNoJson storeC3 1).1).suggestions = []
    ∧ unanalyzedQuestions (advanceJob envNoJson storeC3 1).1
        (AiJob.mk 1 1 1 none JobStatus.COMPLETED 1 0 1 none (some 4) (some 5)) =
        [Question.mk 11 1 aaaText] := by
  have hb := advanceJob_batch_eq envNoJson storeC3 1 jobC3 rfl rfl rfl
    (by decide) (by decide) (by decide)
  have hmr : markRunning envNoJson storeC3 1 jobC3 = storeC3 := rfl
  have htoA : unanalyzedQuestions storeC3 jobC3 = [Question.mk 11 1 aaaText] := rfl
  have hch : allChunksOf (completedDocs storeC3 jobC3.organizationId) = [named65] := rfl
  have hpb := processBatch_fails_aaa jobC3 storeC3 ([Question.mk 11 1 aaaText].take 5)
    (by decide)
  have hadv : advanceJob envNoJson storeC3 1 =
      (Store.mk [AiJob.mk 1 1 1 none JobStatus.COMPLETED 1 0 1 none (some 4) (some 5)]
        [] [Question.mk 11 1 aaaText] [doc65],
       AdvanceOutcome.batchDone 0 1 0 1) := by
    simp only [hb, hmr, htoA, hch, hpb]
    rfl
  rw [hadv]
  exact ⟨rfl, rfl, rfl⟩

/-! ### Failed questions re-enter later batches: counters can exceed the
total (C9) -/

set_option maxRecDepth 100000 in
/-- C9: a trace through create + two advance calls on six questions whose
LLM replies never parse.  Each advance re-derives the unanalyzed set (all
six questions, since failures persist no suggestion), processes a batch of
five, and adds 5 to `failedQuestions` — after two calls the job shows
`processedQuestions + failedQuestions = 10 > totalQuestions = 6`. -/
theorem counters_exceed_total_trace :
    ((findJob (advanceJob envNoJson
        (advanceJob envNoJson (createJob storeC9 1 1 none 10).1 10).1 10).1 10).map
      (fun j => (j.totalQuestions, j.processedQuestions, j.failedQuestions)))
        = some (6, 0, 10)
    ∧ ((findJob (advanceJob envNoJson
        (advanceJob envNoJson (createJob storeC9 1 1 none 10).1 10).1 10).1 10).map
      (fun j => decide (j.totalQuestions < j.processedQuestions + j.failedQuestions)))
        = some true := by
  have hcreate : (createJob storeC9 1 1 none 10).1 = storeC9a := rfl
  have hadv1 : advanceJob envNoJson storeC9a 10 = (storeC9c, AdvanceOutcome.batchDone 0 5 1 5) := by
    have hb := advanceJob_batch_eq envNoJson storeC9a 10 jobC9a rfl rfl rfl
      (by decide) (by decide) (by decide)
    have hmr : markRunning envNoJson storeC9a 10 jobC9a = storeC9b := rfl
    have htoA : unanalyzedQuestions storeC9b jobC9a = qsC9 := rfl
    have hch : allChunksOf (completedDocs storeC9b jobC9a.organizationId) = [named65] := rfl
    have hpb := processBatch_fails_aaa jobC9a storeC9b (qsC9.take 5) (by decide)
    simp only [hb, hmr, htoA, hch, hpb]
    rfl
  have hadv2 : advanceJob envNoJson storeC9c 10 = (storeC9d, AdvanceOutcome.batchDone 0 5 1 5) := by
    have hb := advanceJob_batch_eq envNoJson storeC9c 10 jobC9c rfl rfl rfl
      (by decide) (by decide) (by decide)
    have hmr : markRunning envNoJson storeC9c 10 jobC9c = storeC9c := rfl
    have htoA : unanalyzedQuestions storeC9c jobC9c = qsC9 := rfl
    have hch : allChunksOf (completedDocs storeC9c jobC9c.organizationId) = [named65] := rfl
    have hpb := processBatch_fails_aaa jobC9c storeC9c (qsC9.take 5) (by decide)
    simp only [hb, hmr, htoA, hch, hpb]
    rfl
  constructor
  · simp only [hcreate, hadv1, hadv2]
    rfl
  · simp only [hcreate, hadv1, hadv2]
    rfl

end DoraAudit
